import Mathlib

/-!
Verification of the review-bot orchestration engine against its design
specification.  The TypeScript sources are shallowly embedded: every pure
computation (label transitions, the cycle counter's regex scan, the CI verdict
reduction, the comment merger, the result parsers, the build-gate output
truncation) is translated into an executable Lean definition, and the stateful
pipeline prefixes are modelled as pure functions from their external inputs to
the list of platform mutations they perform.
-/

namespace ReviewBot

/-! ## Labels (src/github/labeler.ts) -/

/-- The five-label bot vocabulary, `BOT_LABELS` in src/github/labeler.ts. -/
def BOT_LABELS : List String :=
  ["bot-review-needed", "bot-changes-needed", "bot-ci-pending",
   "human-review-needed", "bot-human-intervention"]

/-- Model of `setLabel` from src/github/labeler.ts, acting on the set of labels
currently attached to a PR (modelled as a list): every bot label is removed
(removal of an absent label is tolerated), then the target label is added. -/
def setLabel (labels : List String) (target : String) : List String :=
  labels.filter (fun l => decide (l ∉ BOT_LABELS)) ++ [target]

/-! ## Cycle counter (countReviewCycles, write pipeline source)

The counter scans every comment body with the JavaScript regex
`/review::([a-f0-9-]+)/g` and counts the distinct capture-group values.  The
scan is embedded over `List Char`: `tryMatch` attempts a match at the current
position (the literal tag `review::` followed by a non-empty maximal run of
characters from the class `[a-f0-9-]`), and `scanFuel` walks the string
left-to-right, continuing after the end of each match exactly as a global
regex does.  The fuel argument is always instantiated with the string length,
which suffices because every step consumes at least one character. -/

/-- Decides membership in the regex character class `[a-f0-9-]`. -/
def isClassChar (c : Char) : Bool :=
  ('a' ≤ c && c ≤ 'f') || ('0' ≤ c && c ≤ '9') || c == '-'

/-- The literal part of the regex: the characters of `review::`. -/
def reviewTag : List Char := ['r', 'e', 'v', 'i', 'e', 'w', ':', ':']

/-- One match attempt of `/review::([a-f0-9-]+)/` at the head of `s`:
on success returns the capture group and the remainder after the match. -/
def tryMatch (s : List Char) : Option (List Char × List Char) :=
  if reviewTag.isPrefixOf s then
    if (s.drop 8).takeWhile isClassChar = [] then none
    else some ((s.drop 8).takeWhile isClassChar,
               (s.drop 8).drop ((s.drop 8).takeWhile isClassChar).length)
  else none

/-- Fuel-indexed global scan; each step consumes at least one character, so
fuel `s.length` always suffices. -/
def scanFuel : Nat → List Char → List (List Char)
  | 0, _ => []
  | _ + 1, [] => []
  | fuel + 1, c :: rest =>
    match tryMatch (c :: rest) with
    | some (cap, rest') => cap :: scanFuel fuel rest'
    | none => scanFuel fuel rest

/-- All capture groups produced by `body.matchAll(/review::([a-f0-9-]+)/g)`,
in order. -/
def scanMatches (s : List Char) : List (List Char) := scanFuel s.length s

/-- A PR comment as consumed by `countReviewCycles`: only the (possibly
absent) body matters. -/
structure CommentRec where
  body : Option String
deriving DecidableEq

/-- The review ids contributed by one comment.  The guard mirrors
`if (!comment.body) continue`, which skips both absent and empty bodies. -/
def bodyMatches (c : CommentRec) : List (List Char) :=
  match c.body with
  | none => []
  | some b => if b = "" then [] else scanMatches b.data

/-- The set of distinct review ids accumulated over the comment list,
mirroring the `Set<string>` in `countReviewCycles`. -/
def cycleIdSet (comments : List CommentRec) : Finset (List Char) :=
  comments.foldl
    (fun ids c => (bodyMatches c).foldl (fun ids' m => insert m ids') ids) ∅

/-- Model of `countReviewCycles` from the write pipeline source: the number of distinct
`review::<id>` capture values across all comment bodies. -/
def countReviewCycles (comments : List CommentRec) : Nat :=
  (cycleIdSet comments).card

/-- The concatenation of every comment's review-id matches (used to state the
distinct-count characterisation). -/
def collectIds : List CommentRec → List (List Char)
  | [] => []
  | c :: rest => bodyMatches c ++ collectIds rest

/-! ## Comment footer tag (makeFooter, shared/footer source) -/

/-- Model of `makeFooter` from the shared footer module: the trailing tag appended to
every bot comment body, with an optional review id. -/
def makeFooter (threadId : String) (reviewId : Option String) : String :=
  match reviewId with
  | some r => "\n\n---\n<sub>thread::" ++ threadId ++ " | review::" ++ r ++ "</sub>"
  | none => "\n\n---\n<sub>thread::" ++ threadId ++ "</sub>"

/-- The characters of the footer up to the thread id (`"\n\n---\n<sub>thread::"`). -/
def preTidChars : List Char :=
  ['\n', '\n', '-', '-', '-', '\n', '<', 's', 'u', 'b', '>',
   't', 'h', 'r', 'e', 'a', 'd', ':', ':']

/-- The footer separator between the thread id and the review tag (`" | "`). -/
def midChars : List Char := [' ', '|', ' ']

/-- The closing characters of the footer (`"</sub>"`). -/
def postChars : List Char := ['<', '/', 's', 'u', 'b', '>']

/-! ## CI monitor (src/writer/ci-monitor.ts) -/

/-- The tri-state CI verdict (`CIState` in src/writer/ci-monitor.ts). -/
inductive CIState where
  | passed
  | failed
  | pending
deriving DecidableEq

/-- One entry of `CIResult.failedChecks`. -/
structure FailedCheck where
  name : String
  conclusion : String
  url : Option String
deriving DecidableEq

/-- Model of `CIResult` from src/writer/ci-monitor.ts. -/
structure CIResult where
  state : CIState
  summary : String
  failedChecks : List FailedCheck
deriving DecidableEq

/-- A check run as consumed by `checkCI` (name, status, optional conclusion,
optional html url). -/
structure CheckRun where
  name : String
  status : String
  conclusion : Option String
  html_url : Option String
deriving DecidableEq

/-- A legacy commit status as consumed by `checkCI`. -/
structure CommitStatus where
  context : String
  state : String
  target_url : Option String
deriving DecidableEq

/-- The check-run failure test in `checkCI`'s first loop: only completed runs
are examined, and a missing conclusion reads as `"unknown"`. -/
def runFailing (r : CheckRun) : Bool :=
  r.status == "completed" &&
    (r.conclusion.getD "unknown" == "failure" ||
     r.conclusion.getD "unknown" == "cancelled" ||
     r.conclusion.getD "unknown" == "timed_out")

/-- The commit-status failure test in `checkCI`'s second loop. -/
def statusFailing (s : CommitStatus) : Bool :=
  s.state == "failure" || s.state == "error"

/-- The `failedChecks` list built by `checkCI`'s two collection loops, check
runs first. -/
def ciFailedChecks (runs : List CheckRun) (statuses : List CommitStatus) :
    List FailedCheck :=
  runs.filterMap (fun r => if runFailing r then
    some ⟨r.name, r.conclusion.getD "unknown", r.html_url⟩ else none) ++
  statuses.filterMap (fun s => if statusFailing s then
    some ⟨s.context, s.state, s.target_url⟩ else none)

/-- Model of `checkCI` from src/writer/ci-monitor.ts, as a pure function of the two
fetched result lists. -/
def checkCI (runs : List CheckRun) (statuses : List CommitStatus) : CIResult :=
  if runs.length = 0 ∧ statuses.length = 0 then
    ⟨.passed, "No CI checks configured — treating as passed.", []⟩
  else if 0 < (ciFailedChecks runs statuses).length then
    ⟨.failed,
      "CI failed: " ++ String.intercalate ", "
        ((ciFailedChecks runs statuses).map (fun c => c.name)),
      ciFailedChecks runs statuses⟩
  else if runs.any (fun r => r.status != "completed") ||
      statuses.any (fun s => s.state == "pending") then
    ⟨.pending,
      "CI in progress: " ++
        toString (runs.filter (fun r => r.status == "completed")).length ++
        "/" ++ toString runs.length ++ " check runs, " ++
        toString (statuses.filter (fun s => s.state != "pending")).length ++
        "/" ++ toString statuses.length ++ " statuses completed.",
      []⟩
  else
    ⟨.passed,
      "All " ++ toString (runs.length + statuses.length) ++ " CI checks passed.",
      []⟩

/-! ## CI handler (src/writer/ci-handler.ts)

`handleCIPending` is effectful; it is modelled as a pure function from its
external inputs (the CI verdict for the head ref, the head commit's
committer/author timestamps, the current clock and the configured timeout) to
the mutations it performs.  The elapsed time is computed solely from the
commit's own timestamp — the model has no watch-start input at all, mirroring
`Date.now() - new Date(commitDate).getTime()`. -/

/-- Which of the handler's comments was posted. -/
inductive CIComment where
  | ciPassed
  | ciFailed
  | ciTimeout
deriving DecidableEq

/-- The mutations performed by one `handleCIPending` run. -/
structure CIHandlerOutcome where
  posted : List CIComment
  newLabel : Option String
deriving DecidableEq

/-- Model of `commit.commit.committer?.date ?? commit.commit.author?.date`. -/
def commitTimestamp (committerDate authorDate : Option Int) : Option Int :=
  match committerDate with
  | some t => some t
  | none => authorDate

/-- Model of `handleCIPending` from src/writer/ci-handler.ts.  Timestamps and the
clock are in milliseconds. -/
def handleCIPending (ciState : CIState) (committerDate authorDate : Option Int)
    (now timeoutMs : Int) : CIHandlerOutcome :=
  match ciState with
  | .passed => ⟨[.ciPassed], some "bot-review-needed"⟩
  | .failed => ⟨[.ciFailed], some "bot-changes-needed"⟩
  | .pending =>
    match commitTimestamp committerDate authorDate with
    | none => ⟨[], none⟩
    | some t =>
      if now - t > timeoutMs then ⟨[.ciTimeout], some "bot-changes-needed"⟩
      else ⟨[], none⟩

/-! ## Result merger (mergeResults, review pipeline source) -/

/-- Model of `ReviewComment` from the review types module: `path = none` denotes a
free-standing comment. -/
structure ReviewComment where
  path : Option String
  line : Option Int
  body : String
deriving DecidableEq

/-- Model of `ThreadResponse` from the review types module. -/
structure ThreadResponse where
  thread_id : String
  resolved : Bool
  response : Option String
deriving DecidableEq

/-- The `architecture_update_needed` flag. -/
structure AUFlag where
  needed : Bool
  reason : Option String
deriving DecidableEq

/-- Model of `ArchitecturePassResult` from the review types module. -/
structure ArchPassResult where
  architecture_comments : List ReviewComment
  architecture_update_needed : AUFlag
  thread_responses : List ThreadResponse
  summary : Option String
deriving DecidableEq

/-- Model of `DetailedPassResult` from the review types module. -/
structure DetailedPassResult where
  detail_comments : List ReviewComment
  thread_responses : List ThreadResponse
  summary : Option String
deriving DecidableEq

/-- Model of `MergedReviewResult` from the review types module. -/
structure MergedReviewResult where
  comments : List ReviewComment
  thread_responses : List ThreadResponse
  architecture_update_needed : AUFlag
  summary : String
deriving DecidableEq

/-- The duplicate test inside `mergeResults`: same path, both line numbers
present and at most 2 apart, byte-identical bodies. -/
def isDupComment (existing c : ReviewComment) : Bool :=
  existing.path == c.path &&
  (match existing.line, c.line with
   | some le, some lc => decide ((le - lc).natAbs ≤ 2)
   | _, _ => false) &&
  existing.body == c.body

/-- One step of the dedup loop in `mergeResults`: keep the incoming comment
only if no already-kept comment is a duplicate of it. -/
def dedupStep (deduped : List ReviewComment) (c : ReviewComment) :
    List ReviewComment :=
  if deduped.any (fun e => isDupComment e c) then deduped else deduped ++ [c]

/-- The dedup loop of `mergeResults` over the concatenated comment list. -/
def dedupComments (all : List ReviewComment) : List ReviewComment :=
  all.foldl dedupStep []

/-- JS `Map.set` keyed by thread id: replace in place if the key exists,
append otherwise (preserving first-insertion order, as `Map.values()` does). -/
def mapSet (m : List (String × ThreadResponse)) (tr : ThreadResponse) :
    List (String × ThreadResponse) :=
  if m.any (fun p => p.1 == tr.thread_id) then
    m.map (fun p => if p.1 == tr.thread_id then (tr.thread_id, tr) else p)
  else m ++ [(tr.thread_id, tr)]

/-- Model of `mergeResults` from the review pipeline source: concatenate (architecture
first) and dedup the comments, reconcile thread verdicts with the
architecture pass applied last, join the non-falsy summaries, and take the
architecture-update flag verbatim from the architecture pass. -/
def mergeResults (archResult : ArchPassResult)
    (detailResult : DetailedPassResult) : MergedReviewResult :=
  let deduped := dedupComments
    (archResult.architecture_comments ++ detailResult.detail_comments)
  let threadMap := archResult.thread_responses.foldl mapSet
    (detailResult.thread_responses.foldl mapSet [])
  let summaryParts := ([archResult.summary, detailResult.summary].filterMap
    id).filter (fun s => !(s == ""))
  ⟨deduped,
   threadMap.map (fun p => p.2),
   archResult.architecture_update_needed,
   if String.intercalate "\n\n" summaryParts == "" then "Review complete."
   else String.intercalate "\n\n" summaryParts⟩

/-! ## Thread-reply fallbacks (review pipeline step 8, write pipeline step 11)

The posting loops are effectful; each reply attempt is modelled as a function
of whether the reply target still exists (`false` models the platform
answering 404) to the list of comments the attempt creates. -/

/-- A comment created by a reply attempt: an inline thread reply or a
free-standing (general) comment. -/
inductive PostedComment where
  | inlineReply (targetId : String) (body : String)
  | general (body : String)
deriving DecidableEq

/-- The resolved-thread marker reply in the review pipeline: on 404 it falls
back to a free-standing comment embedding the original thread id. -/
def postResolvedMarker (targetExists : Bool) (tid footer : String) :
    List PostedComment :=
  if targetExists then [.inlineReply tid ("REVIEW BOT RESOLVED" ++ footer)]
  else [.general ("REVIEW BOT RESOLVED (thread::" ++ tid ++ ")" ++ footer)]

/-- The unresolved-thread response reply in the review pipeline: the `catch`
only logs — a failed reply posts nothing. -/
def postThreadResponse (targetExists : Bool) (tid response footer : String) :
    List PostedComment :=
  if targetExists then [.inlineReply tid (response ++ footer)] else []

/-- The addressed-thread explanation reply in the write pipeline: on 404 it
falls back to a free-standing comment embedding the original thread id. -/
def postAddressedReply (targetExists : Bool) (tid explanation footer : String) :
    List PostedComment :=
  if targetExists then
    [.inlineReply tid ("**Addressed:** " ++ explanation ++ footer)]
  else
    [.general ("**Addressed** (thread::" ++ tid ++ "): " ++ explanation ++
      footer)]

/-! ## Write pipeline cycle-limit gate (runWritePipeline step 1) -/

/-- A mutation or external action performed by the write pipeline. -/
inductive WriteEvent where
  | postComment (body : String)
  | setLabelCall (label : String)
  | checkout
  | agentInvoke (pass : String)
  | mergeAttempt
  | pushCall
deriving DecidableEq

/-- The hand-off comment body posted when the cycle limit is reached. -/
def handoffBody (cycleCount : Nat) (footerTid : String) : String :=
  "## Human Intervention Needed\n\nThis PR has gone through " ++
    toString cycleCount ++
    " review cycles without passing. Handing off to a human reviewer." ++
    makeFooter footerTid none

/-- The cycle-limit gate at the top of `runWritePipeline`: when the cycle
count recomputed from the full comment history reaches the configured
maximum, the pipeline posts the hand-off comment, transitions to
`bot-human-intervention` and returns; otherwise it proceeds to acquire a
checkout and run the remaining steps (abstracted as `rest`). -/
def runWritePipelineGate (comments : List CommentRec) (maxCycles : Nat)
    (footerTid : String) (rest : List WriteEvent) : List WriteEvent :=
  if maxCycles ≤ countReviewCycles comments then
    [.postComment (handoffBody (countReviewCycles comments) footerTid),
     .setLabelCall "bot-human-intervention"]
  else .checkout :: rest

/-! ## Build gate (src/review/build-runner.ts) and review pipeline entry -/

/-- Model of `BuildResult` from the review types module. -/
structure BuildResult where
  success : Bool
  output : String
deriving DecidableEq

/-- One discovered build/test command together with its observed execution
outcome (exec is external; the loop consumes its results). -/
structure CmdRun where
  cmd : String
  success : Bool
  stdout : String
  stderr : String
deriving DecidableEq

/-- Model of `MAX_OUTPUT_LENGTH` from src/review/build-runner.ts. -/
def MAX_OUTPUT_LENGTH : Nat := 2000

/-- JS `s.slice(-n)` for positive `n`: the last `min n (length s)`
characters. -/
def sliceLast (s : String) (n : Nat) : String :=
  String.mk (s.data.drop (s.data.length - n))

/-- The command loop of `runBuildAndTests`: push each command's entry; on the
first failure return the truncated concatenation of everything so far. -/
def buildLoop (outputs : List String) : List CmdRun → BuildResult
  | [] => ⟨true, String.intercalate "\n\n" outputs⟩
  | r :: rest =>
    if r.success then
      buildLoop (outputs ++ ["$ " ++ r.cmd ++ "\n" ++ r.stdout ++ r.stderr])
        rest
    else
      ⟨false, sliceLast (String.intercalate "\n\n"
        (outputs ++ ["$ " ++ r.cmd ++ "\n" ++ r.stdout ++ r.stderr]))
        MAX_OUTPUT_LENGTH⟩

/-- Model of `runBuildAndTests` from src/review/build-runner.ts as a function of the
discovered commands and their execution outcomes. -/
def runBuildAndTests (cmds : List CmdRun) : BuildResult :=
  if cmds = [] then ⟨true, "No build/test commands found"⟩
  else buildLoop [] cmds

/-- A mutation or external action performed by the review pipeline. -/
inductive ReviewEvent where
  | checkout
  | postComment (body : String)
  | setLabelCall (label : String)
  | agentInvoke (pass : String)
deriving DecidableEq

/-- Discriminates posted-comment events (for counting). -/
def isPostCommentEvent : ReviewEvent → Bool
  | .postComment _ => true
  | _ => false

/-- The build-gate prefix of `runReviewPipeline`: acquire the checkout, run
the gate, and on failure post the single failure comment (the truncated
output in a code fence, tagged with a fresh thread id), transition to
`bot-changes-needed` and stop before the analysis passes (abstracted as
`rest`). -/
def runReviewPipelineGate (b : BuildResult) (tid : String)
    (rest : List ReviewEvent) : List ReviewEvent :=
  .checkout ::
    (if b.success then rest
     else
       [.postComment ("## Build/Test Failure\n\n```\n" ++ b.output ++
          "\n```" ++ makeFooter tid none),
        .setLabelCall "bot-changes-needed"])

/-! ## Result parsers (src/writer/result-parser.ts and the review result
parsers)

`JSON.parse` is a platform primitive; the parsers' own validation logic
starts from the extraction result, modelled as `Option JValue` (`none` when
no JSON value could be extracted from the agent output).  Quantifying over
every possible extraction result covers every input string; the parsers are
total Lean functions, so they cannot raise. -/

/-- A parsed JSON value. -/
inductive JValue where
  | null
  | bool (b : Bool)
  | num (n : Int)
  | str (s : String)
  | arr (elems : List JValue)
  | obj (fields : List (String × JValue))

/-- Object property lookup with `JSON.parse`'s duplicate-key semantics (the
last occurrence wins). -/
def lookupLast : List (String × JValue) → String → Option JValue
  | [], _ => none
  | (k, v) :: rest, key =>
    match lookupLast rest key with
    | some r => some r
    | none => if k == key then some v else none

/-- JS property access on a parsed value: `undefined` (here `none`) when the
value is not an object or lacks the key. -/
def getField : JValue → String → Option JValue
  | .obj fields, key => lookupLast fields key
  | _, _ => none

/-- Model of `data.key` where `data` is the extraction result. -/
def fieldOf (data : Option JValue) (key : String) : Option JValue :=
  match data with
  | none => none
  | some v => getField v key

/-- JS falsiness of the extraction result (`!data`). -/
def isFalsy : Option JValue → Bool
  | none => true
  | some .null => true
  | some (.bool false) => true
  | some (.num 0) => true
  | some (.str "") => true
  | _ => false

/-- Model of `Array.isArray` applied to a field read. -/
def asArr : Option JValue → Option (List JValue)
  | some (.arr xs) => some xs
  | _ => none

/-- Model of `typeof x === "object" && x !== null` (arrays pass, `null` is excluded by
the explicit check in the source). -/
def isObjLike : JValue → Bool
  | .obj _ => true
  | .arr _ => true
  | _ => false

/-- Whether `data.key` is an array. -/
def isArrField (data : Option JValue) (key : String) : Bool :=
  (asArr (fieldOf data key)).isSome

/-- Whether `data.key` is a boolean. -/
def isBoolField (data : Option JValue) (key : String) : Bool :=
  match fieldOf data key with
  | some (.bool _) => true
  | _ => false

/-- Whether `data.key` is a string. -/
def isStrField (data : Option JValue) (key : String) : Bool :=
  match fieldOf data key with
  | some (.str _) => true
  | _ => false

/-- Whether `data.key` passes the source's object test. -/
def isObjField (data : Option JValue) (key : String) : Bool :=
  match fieldOf data key with
  | some v => isObjLike v
  | none => false

/-- The result shape of `parseArchitectureResult`; list fields keep the raw
array elements, as the source's casts do. -/
structure ArchParseResult where
  architecture_comments : List JValue
  architecture_update_needed : JValue
  thread_responses : List JValue
  summary : Option String

/-- The result shape of `parseDetailedResult`. -/
structure DetailedParseResult where
  detail_comments : List JValue
  thread_responses : List JValue
  summary : Option String

/-- The result shape of `parseWriteResult`. -/
structure WriteParseResult where
  threads_addressed : List JValue
  build_passed : Bool
  summary : String

/-- The `{ needed: false }` default for the architecture-update flag. -/
def defaultAU : JValue := .obj [("needed", .bool false)]

/-- Model of `parseArchitectureResult` over the extraction result. -/
def parseArchitectureResult (data : Option JValue) : ArchParseResult :=
  if isFalsy data then ⟨[], defaultAU, [], none⟩
  else
    ⟨(match asArr (fieldOf data "architecture_comments") with
      | some xs => xs
      | none =>
        match asArr (fieldOf data "new_comments") with
        | some xs => xs
        | none => []),
     (match fieldOf data "architecture_update_needed" with
      | some v => if isObjLike v then v else defaultAU
      | none => defaultAU),
     (match asArr (fieldOf data "thread_responses") with
      | some xs => xs
      | none => []),
     (match fieldOf data "summary" with
      | some (.str s) => some s
      | _ => none)⟩

/-- Model of `parseDetailedResult` over the extraction result. -/
def parseDetailedResult (data : Option JValue) : DetailedParseResult :=
  if isFalsy data then ⟨[], [], none⟩
  else
    ⟨(match asArr (fieldOf data "detail_comments") with
      | some xs => xs
      | none =>
        match asArr (fieldOf data "new_comments") with
        | some xs => xs
        | none => []),
     (match asArr (fieldOf data "thread_responses") with
      | some xs => xs
      | none => []),
     (match fieldOf data "summary" with
      | some (.str s) => some s
      | _ => none)⟩

/-- Model of `parseWriteResult` over the extraction result. -/
def parseWriteResult (data : Option JValue) : WriteParseResult :=
  if isFalsy data then ⟨[], false, "Failed to parse code-fix output."⟩
  else
    ⟨(match asArr (fieldOf data "threads_addressed") with
      | some xs => xs
      | none => []),
     (match fieldOf data "build_passed" with
      | some (.bool b) => b
      | _ => false),
     (match fieldOf data "summary" with
      | some (.str s) => s
      | _ => "Code fix complete.")⟩

/-! ## Theorems -/

theorem isPrefixOfIffPre {l₁ l₂ : List Char} :
    l₁.isPrefixOf l₂ = true ↔ l₁ <+: l₂ :=
  List.isPrefixOf_iff_prefix

theorem takeWhilePre (p : Char → Bool) (l : List Char) :
    l.takeWhile p <+: l :=
  List.takeWhile_prefix p

theorem tryMatch_some_length {s : List Char} {p : List Char × List Char}
    (h : tryMatch s = some p) : p.2.length < s.length := by
  unfold tryMatch at h
  split at h
  case isFalse => exact absurd h (by simp)
  case isTrue hpre =>
    have h8 : 8 ≤ s.length := by
      have := List.IsPrefix.length_le (isPrefixOfIffPre.mp hpre)
      simpa [reviewTag] using this
    split at h
    case isTrue => exact absurd h (by simp)
    case isFalse hcap =>
      have hpos : 0 < ((s.drop 8).takeWhile isClassChar).length :=
        List.length_pos.mpr hcap
      have hle : ((s.drop 8).takeWhile isClassChar).length ≤ (s.drop 8).length :=
        (takeWhilePre _ _).length_le
      injection h with h
      subst h
      simp only [List.length_drop]
      omega

theorem scanFuel_congr : ∀ (f g : Nat) (s : List Char),
    s.length ≤ f → s.length ≤ g → scanFuel f s = scanFuel g s := by
  intro f
  induction f with
  | zero =>
    intro g s hf _
    have hs : s = [] := List.length_eq_zero.mp (Nat.le_zero.mp hf)
    subst hs
    cases g <;> rfl
  | succ f ih =>
    intro g s hf hg
    cases s with
    | nil => cases g <;> rfl
    | cons c rest =>
      cases g with
      | zero => simp at hg
      | succ g' =>
        simp only [scanFuel]
        cases htm : tryMatch (c :: rest) with
        | none =>
          exact ih g' rest (by simp at hf; omega) (by simp at hg; omega)
        | some p =>
          obtain ⟨cap, rest'⟩ := p
          have hlen := tryMatch_some_length htm
          simp only [List.length_cons] at hlen hf hg
          show cap :: scanFuel f rest' = cap :: scanFuel g' rest'
          rw [ih g' rest' (by omega) (by omega)]

theorem mem_foldl_insert (l : List (List Char)) (s : Finset (List Char))
    (x : List Char) :
    x ∈ l.foldl (fun acc m => insert m acc) s ↔ x ∈ s ∨ x ∈ l := by
  induction l generalizing s with
  | nil => simp
  | cons a l ih =>
    simp only [List.foldl_cons, ih, Finset.mem_insert, List.mem_cons]
    tauto

theorem mem_cycleFold (comments : List CommentRec) (init : Finset (List Char))
    (x : List Char) :
    x ∈ comments.foldl
        (fun ids c => (bodyMatches c).foldl (fun ids' m => insert m ids') ids)
        init ↔
      x ∈ init ∨ ∃ c ∈ comments, x ∈ bodyMatches c := by
  induction comments generalizing init with
  | nil => simp
  | cons a l ih =>
    simp only [List.foldl_cons, ih, mem_foldl_insert, List.mem_cons]
    constructor
    · rintro ((h | h) | ⟨c, hc, hx⟩)
      · exact Or.inl h
      · exact Or.inr ⟨a, Or.inl rfl, h⟩
      · exact Or.inr ⟨c, Or.inr hc, hx⟩
    · rintro (h | ⟨c, (rfl | hc), hx⟩)
      · exact Or.inl (Or.inl h)
      · exact Or.inl (Or.inr hx)
      · exact Or.inr ⟨c, hc, hx⟩

theorem mem_cycleIdSet (comments : List CommentRec) (x : List Char) :
    x ∈ cycleIdSet comments ↔ ∃ c ∈ comments, x ∈ bodyMatches c := by
  unfold cycleIdSet
  rw [mem_cycleFold]
  simp

theorem mem_collectIds (l : List CommentRec) (x : List Char) :
    x ∈ collectIds l ↔ ∃ c ∈ l, x ∈ bodyMatches c := by
  induction l with
  | nil => simp [collectIds]
  | cons a l ih =>
    simp only [collectIds, List.mem_append, ih, List.mem_cons]
    constructor
    · rintro (h | ⟨c, hc, hx⟩)
      · exact ⟨a, Or.inl rfl, h⟩
      · exact ⟨c, Or.inr hc, hx⟩
    · rintro ⟨c, (rfl | hc), hx⟩
      · exact Or.inl hx
      · exact Or.inr ⟨c, hc, hx⟩

theorem cycleIdSet_eq_collect (l : List CommentRec) :
    cycleIdSet l = (collectIds l).toFinset := by
  ext x
  rw [mem_cycleIdSet, List.mem_toFinset, mem_collectIds]

/-- C2: the cycle counter returns the number of distinct `review::<id>`
capture values occurring in the comment bodies; a comment without a
recognisable tag contributes nothing, a repeated id counts once (duplicating a
comment already in the list leaves the count unchanged), and the count is
invariant under permutation of the comment list. -/
theorem countReviewCycles_distinct_ids (l₁ l₂ : List CommentRec)
    (c : CommentRec) :
    countReviewCycles l₁ = (collectIds l₁).toFinset.card ∧
    (l₁.Perm l₂ → countReviewCycles l₁ = countReviewCycles l₂) ∧
    (c ∈ l₁ → countReviewCycles (c :: l₁) = countReviewCycles l₁) ∧
    (bodyMatches c = [] → countReviewCycles (c :: l₁) = countReviewCycles l₁) := by
  have hset : ∀ l : List CommentRec, countReviewCycles l = (cycleIdSet l).card :=
    fun _ => rfl
  refine ⟨by rw [hset, cycleIdSet_eq_collect], ?_, ?_, ?_⟩
  · intro hperm
    rw [hset, hset]
    congr 1
    ext x
    rw [mem_cycleIdSet, mem_cycleIdSet]
    constructor
    · rintro ⟨a, ha, hx⟩
      exact ⟨a, hperm.mem_iff.mp ha, hx⟩
    · rintro ⟨a, ha, hx⟩
      exact ⟨a, hperm.mem_iff.mpr ha, hx⟩
  · intro hc
    rw [hset, hset]
    congr 1
    ext x
    rw [mem_cycleIdSet, mem_cycleIdSet]
    constructor
    · rintro ⟨a, ha, hx⟩
      rcases List.mem_cons.mp ha with rfl | ha'
      · exact ⟨a, hc, hx⟩
      · exact ⟨a, ha', hx⟩
    · rintro ⟨a, ha, hx⟩
      exact ⟨a, List.mem_cons_of_mem _ ha, hx⟩
  · intro hb
    rw [hset, hset]
    congr 1
    ext x
    rw [mem_cycleIdSet, mem_cycleIdSet]
    constructor
    · rintro ⟨a, ha, hx⟩
      rcases List.mem_cons.mp ha with rfl | ha'
      · rw [hb] at hx
        exact absurd hx (List.not_mem_nil x)
      · exact ⟨a, ha', hx⟩
    · rintro ⟨a, ha, hx⟩
      exact ⟨a, List.mem_cons_of_mem _ ha, hx⟩

theorem countReviewCycles_distinct_ids_witness :
    countReviewCycles [⟨some "review::ab"⟩, ⟨none⟩] =
      (collectIds [⟨some "review::ab"⟩, ⟨none⟩]).toFinset.card ∧
    countReviewCycles [⟨some "review::ab"⟩, ⟨none⟩] =
      countReviewCycles [⟨none⟩, ⟨some "review::ab"⟩] ∧
    countReviewCycles (⟨some "review::ab"⟩ :: [⟨some "review::ab"⟩, ⟨none⟩]) =
      countReviewCycles [⟨some "review::ab"⟩, ⟨none⟩] :=
  ⟨(countReviewCycles_distinct_ids [⟨some "review::ab"⟩, ⟨none⟩]
      [⟨none⟩, ⟨some "review::ab"⟩] ⟨some "review::ab"⟩).1,
   (countReviewCycles_distinct_ids [⟨some "review::ab"⟩, ⟨none⟩]
      [⟨none⟩, ⟨some "review::ab"⟩] ⟨some "review::ab"⟩).2.1 (by decide),
   (countReviewCycles_distinct_ids [⟨some "review::ab"⟩, ⟨none⟩]
      [⟨none⟩, ⟨some "review::ab"⟩] ⟨some "review::ab"⟩).2.2.1 (by decide)⟩

theorem scanMatches_cons_none {c : Char} {rest : List Char}
    (h : tryMatch (c :: rest) = none) :
    scanMatches (c :: rest) = scanMatches rest := by
  show scanFuel (c :: rest).length (c :: rest) = scanFuel rest.length rest
  simp only [List.length_cons, scanFuel, h]

theorem scanMatches_cons_some {c : Char} {rest cap rest' : List Char}
    (h : tryMatch (c :: rest) = some (cap, rest')) :
    scanMatches (c :: rest) = cap :: scanMatches rest' := by
  have hlt : rest'.length < rest.length + 1 := by
    simpa using tryMatch_some_length h
  show scanFuel (c :: rest).length (c :: rest) = _
  simp only [List.length_cons, scanFuel, h]
  rw [scanFuel_congr rest.length rest'.length rest' (by omega) le_rfl]
  rfl

theorem mem_setLabel_bot (s : List String) (t : String) (ht : t ∈ BOT_LABELS)
    (l : String) (hl : l ∈ BOT_LABELS) : l ∈ setLabel s t ↔ l = t := by
  simp only [setLabel, List.mem_append, List.mem_filter, List.mem_singleton,
    decide_eq_true_eq]
  constructor
  · rintro (⟨_, hnb⟩ | rfl)
    · exact absurd hl hnb
    · rfl
  · rintro rfl
    exact Or.inr rfl

theorem botFilter_setLabel (s : List String) (t : String) (ht : t ∈ BOT_LABELS) :
    BOT_LABELS.filter (fun l => decide (l ∈ setLabel s t)) = [t] := by
  have hcongr : BOT_LABELS.filter (fun l => decide (l ∈ setLabel s t)) =
      BOT_LABELS.filter (fun l => decide (l = t)) := by
    refine List.filter_congr (fun a ha => ?_)
    have := mem_setLabel_bot s t ht a ha
    simp only [decide_eq_decide]
    exact this
  rw [hcongr]
  fin_cases ht <;> decide

/-- C1: for every sequence of `setLabel` calls whose targets are drawn from the
five-label bot vocabulary, after each call completes the PR carries exactly
the target label of that call and no other bot label: filtering the bot
vocabulary by membership in the post-state yields the singleton target. -/
theorem setLabel_sequence_single_bot_label
    (init : List String) (calls : List String)
    (hcalls : ∀ t ∈ calls, t ∈ BOT_LABELS)
    (k : Nat) (hk : k < calls.length) :
    BOT_LABELS.filter
      (fun l => decide (l ∈ (calls.take (k+1)).foldl setLabel init)) =
      [calls[k]] := by
  have htake : calls.take (k+1) = calls.take k ++ [calls[k]] := by
    rw [List.take_succ]
    simp [List.getElem?_eq_getElem hk]
  rw [htake, List.foldl_append]
  exact botFilter_setLabel _ _ (hcalls _ (List.getElem_mem hk))

theorem setLabel_sequence_single_bot_label_witness :
    (∀ t ∈ ["bot-review-needed", "bot-changes-needed"], t ∈ BOT_LABELS) ∧
    (1 : Nat) < (["bot-review-needed", "bot-changes-needed"] : List String).length ∧
    BOT_LABELS.filter
      (fun l => decide (l ∈ ((["bot-review-needed", "bot-changes-needed"] :
        List String).take (1+1)).foldl setLabel ["external", "bot-ci-pending"])) =
      ["bot-changes-needed"] :=
  ⟨by decide, by decide,
    setLabel_sequence_single_bot_label ["external", "bot-ci-pending"]
      ["bot-review-needed", "bot-changes-needed"] (by decide) 1 (by decide)⟩

theorem tryMatch_head_ne {c : Char} (s : List Char) (h : ¬ c = 'r') :
    tryMatch (c :: s) = none := by
  have hpre : reviewTag.isPrefixOf (c :: s) = false := by
    simp only [reviewTag, List.isPrefixOf, Bool.and_eq_false_iff]
    exact Or.inl (beq_eq_false_iff_ne.mpr (fun hh => h hh.symm))
  simp [tryMatch, hpre]

theorem scanMatches_skip {c : Char} (s : List Char) (h : ¬ c = 'r') :
    scanMatches (c :: s) = scanMatches s :=
  scanMatches_cons_none (tryMatch_head_ne s h)

theorem tryMatch_thread_r (s : List Char) :
    tryMatch ('r' :: 'e' :: 'a' :: s) = none := by
  have hpre : reviewTag.isPrefixOf ('r' :: 'e' :: 'a' :: s) = false := by
    simp [reviewTag, List.isPrefixOf]
  simp [tryMatch, hpre]

theorem takeWhile_class_append (t q : List Char)
    (h : ∀ c ∈ t, isClassChar c = true) :
    (t ++ q).takeWhile isClassChar = t ++ q.takeWhile isClassChar := by
  induction t with
  | nil => simp
  | cons a t ih =>
    rw [List.cons_append, List.takeWhile_cons, h a (List.mem_cons_self _ _),
      ih (fun c hc => h c (List.mem_cons_of_mem _ hc))]
    rfl

theorem isClassChar_ne_r {c : Char} (h : isClassChar c = true) : ¬ c = 'r' := by
  rintro rfl
  exact absurd h (by decide)

theorem scanMatches_class_append (t q : List Char)
    (h : ∀ c ∈ t, isClassChar c = true) :
    scanMatches (t ++ q) = scanMatches q := by
  induction t with
  | nil => rfl
  | cons a t ih =>
    rw [List.cons_append,
      scanMatches_skip _ (isClassChar_ne_r (h a (List.mem_cons_self _ _))),
      ih (fun c hc => h c (List.mem_cons_of_mem _ hc))]

theorem takeWhile_class_head_none (q : List Char)
    (hq : ∀ c0, q.head? = some c0 → isClassChar c0 = false) :
    q.takeWhile isClassChar = [] := by
  cases q with
  | nil => rfl
  | cons c q' =>
    rw [List.takeWhile_cons, hq c rfl]
    simp

theorem tryMatch_tag (rid q : List Char)
    (hrid : ∀ c ∈ rid, isClassChar c = true) (hne : rid ≠ [])
    (hq : ∀ c0, q.head? = some c0 → isClassChar c0 = false) :
    tryMatch (reviewTag ++ (rid ++ q)) = some (rid, q) := by
  have hpre : reviewTag.isPrefixOf (reviewTag ++ (rid ++ q)) = true :=
    isPrefixOfIffPre.mpr (List.prefix_append _ _)
  have hdrop : (reviewTag ++ (rid ++ q)).drop 8 = rid ++ q := by
    have h8 : reviewTag.length = 8 := rfl
    rw [← h8, List.drop_left]
  have htake : (rid ++ q).takeWhile isClassChar = rid := by
    rw [takeWhile_class_append _ _ hrid, takeWhile_class_head_none q hq,
      List.append_nil]
  unfold tryMatch
  rw [hpre, if_pos rfl, hdrop, htake, if_neg hne, List.drop_left]

theorem scanMatches_tag (rid q : List Char)
    (hrid : ∀ c ∈ rid, isClassChar c = true) (hne : rid ≠ [])
    (hq : ∀ c0, q.head? = some c0 → isClassChar c0 = false) :
    scanMatches (reviewTag ++ (rid ++ q)) = rid :: scanMatches q := by
  have htm : tryMatch ('r' :: ('e' :: 'v' :: 'i' :: 'e' :: 'w' :: ':' :: ':' ::
      (rid ++ q))) = some (rid, q) := tryMatch_tag rid q hrid hne hq
  exact scanMatches_cons_some htm

theorem scanMatches_preTid (s : List Char) :
    scanMatches (preTidChars ++ s) = scanMatches s := by
  simp only [preTidChars, List.cons_append, List.nil_append]
  rw [scanMatches_skip _ (by decide), scanMatches_skip _ (by decide),
    scanMatches_skip _ (by decide), scanMatches_skip _ (by decide),
    scanMatches_skip _ (by decide), scanMatches_skip _ (by decide),
    scanMatches_skip _ (by decide), scanMatches_skip _ (by decide),
    scanMatches_skip _ (by decide), scanMatches_skip _ (by decide),
    scanMatches_skip _ (by decide), scanMatches_skip _ (by decide),
    scanMatches_skip _ (by decide),
    scanMatches_cons_none (tryMatch_thread_r _),
    scanMatches_skip _ (by decide), scanMatches_skip _ (by decide),
    scanMatches_skip _ (by decide), scanMatches_skip _ (by decide),
    scanMatches_skip _ (by decide)]

theorem makeFooter_some_data (tid rid : String) :
    (makeFooter tid (some rid)).data =
      preTidChars ++ (tid.data ++ (midChars ++ (reviewTag ++
        (rid.data ++ postChars)))) := by
  show ("\n\n---\n<sub>thread::" ++ tid ++ " | review::" ++ rid ++
    "</sub>").data = _
  simp only [String.data_append]
  simp [preTidChars, midChars, reviewTag, postChars]

theorem makeFooter_none_data (tid : String) :
    (makeFooter tid none).data =
      preTidChars ++ (tid.data ++ postChars) := by
  show ("\n\n---\n<sub>thread::" ++ tid ++ "</sub>").data = _
  simp only [String.data_append]
  simp [preTidChars, postChars]

theorem scanMatches_footer_some (tid rid : String)
    (htid : ∀ c ∈ tid.data, isClassChar c = true)
    (hrid : ∀ c ∈ rid.data, isClassChar c = true) (hne : rid.data ≠ []) :
    scanMatches (makeFooter tid (some rid)).data = [rid.data] := by
  rw [makeFooter_some_data, scanMatches_preTid,
    scanMatches_class_append _ _ htid]
  simp only [midChars, List.cons_append, List.nil_append]
  rw [scanMatches_skip _ (by decide), scanMatches_skip _ (by decide),
    scanMatches_skip _ (by decide),
    scanMatches_tag rid.data postChars hrid hne (by decide)]
  have : scanMatches postChars = [] := by decide
  rw [this]

theorem scanMatches_footer_none (tid : String)
    (htid : ∀ c ∈ tid.data, isClassChar c = true) :
    scanMatches (makeFooter tid none).data = [] := by
  rw [makeFooter_none_data, scanMatches_preTid,
    scanMatches_class_append _ _ htid]
  decide

theorem isPrefixOf_append_no_nl : ∀ (t p : List Char), '\n' ∉ t →
    ∀ q : List Char, t.isPrefixOf (p ++ '\n' :: q) = true →
      t.isPrefixOf p = true := by
  intro t
  induction t with
  | nil => intro p _ q _; simp [List.isPrefixOf]
  | cons a t ih =>
    intro p hnl q h
    cases p with
    | nil =>
      simp only [List.nil_append, List.isPrefixOf, Bool.and_eq_true,
        beq_iff_eq] at h
      exact absurd (h.1 ▸ List.mem_cons_self a t) hnl
    | cons b p' =>
      simp only [List.cons_append, List.isPrefixOf, Bool.and_eq_true] at h ⊢
      exact ⟨h.1, ih p' (fun hm => hnl (List.mem_cons_of_mem _ hm)) q h.2⟩

theorem takeWhile_nil_append_nl (d q : List Char)
    (hd : d.takeWhile isClassChar = []) :
    (d ++ '\n' :: q).takeWhile isClassChar = [] := by
  cases d with
  | nil =>
    rw [List.nil_append, List.takeWhile_cons,
      show isClassChar '\n' = false from by decide]
    simp
  | cons e d' =>
    rw [List.takeWhile_cons] at hd
    by_cases he : isClassChar e = true
    · rw [he] at hd
      simp at hd
    · have he' : isClassChar e = false := by
        revert he; cases isClassChar e <;> simp
      rw [List.cons_append, List.takeWhile_cons, he']
      simp

theorem scanMatches_append_nl : ∀ (p q : List Char),
    scanMatches p = [] →
      scanMatches (p ++ '\n' :: q) = scanMatches ('\n' :: q) := by
  intro p
  induction p with
  | nil => intro q _; rfl
  | cons c p' ih =>
    intro q h
    have htm : tryMatch (c :: p') = none := by
      cases htm : tryMatch (c :: p') with
      | none => rfl
      | some pr =>
        obtain ⟨cap, rest'⟩ := pr
        rw [scanMatches_cons_some htm] at h
        exact absurd h (by simp)
    have hp' : scanMatches p' = [] := by
      rw [scanMatches_cons_none htm] at h
      exact h
    have htm2 : tryMatch (c :: (p' ++ '\n' :: q)) = none := by
      cases htm2 : tryMatch (c :: (p' ++ '\n' :: q)) with
      | none => rfl
      | some pr =>
        exfalso
        unfold tryMatch at htm2
        split at htm2
        case isFalse => simp at htm2
        case isTrue hpre =>
          have hpre' : reviewTag.isPrefixOf (c :: p') = true := by
            refine isPrefixOf_append_no_nl reviewTag (c :: p') (by decide) q ?_
            simpa using hpre
          have hcap : ((c :: p').drop 8).takeWhile isClassChar = [] := by
            by_contra hcapne
            unfold tryMatch at htm
            rw [hpre', if_pos rfl, if_neg hcapne] at htm
            simp at htm
          have h8 : 8 ≤ (c :: p').length := by
            have := (isPrefixOfIffPre.mp hpre').length_le
            simpa [reviewTag] using this
          have hdrop : (c :: (p' ++ '\n' :: q)).drop 8 =
              ((c :: p').drop 8) ++ '\n' :: q := by
            rw [show c :: (p' ++ '\n' :: q) = (c :: p') ++ '\n' :: q from rfl]
            exact List.drop_append_of_le_length h8
          split at htm2
          case isTrue => simp at htm2
          case isFalse hcapne =>
            apply hcapne
            rw [hdrop]
            exact takeWhile_nil_append_nl _ _ hcap
    rw [List.cons_append, scanMatches_cons_none htm2, ih q hp']

theorem stringData_inj : Function.Injective String.data := by
  intro a b h
  cases a
  cases b
  exact congrArg String.mk h

theorem footer_body_ne_empty (p t : String) (r : Option String) :
    ¬ p ++ makeFooter t r = "" := by
  intro h
  have hd : (p ++ makeFooter t r).data = [] := by rw [h]
  rw [String.data_append] at hd
  cases r with
  | some s =>
    rw [makeFooter_some_data] at hd
    simp [preTidChars] at hd
  | none =>
    rw [makeFooter_none_data] at hd
    simp [preTidChars] at hd

theorem scanMatches_append_hd_nl (p q : List Char) (hp : scanMatches p = [])
    (hq : q.head? = some '\n') : scanMatches (p ++ q) = scanMatches q := by
  cases q with
  | nil => simp at hq
  | cons c q' =>
    have hc : c = '\n' := by simpa using hq
    subst hc
    exact scanMatches_append_nl p q' hp

theorem bodyMatches_footer (p t : String) (r : Option String)
    (hp : scanMatches p.data = [])
    (ht : ∀ c ∈ t.data, isClassChar c = true)
    (hr : ∀ s, r = some s → s.data ≠ [] ∧ ∀ c ∈ s.data, isClassChar c = true) :
    bodyMatches ⟨some (p ++ makeFooter t r)⟩ = (r.map String.data).toList := by
  show (if p ++ makeFooter t r = "" then []
    else scanMatches (p ++ makeFooter t r).data) = _
  rw [if_neg (footer_body_ne_empty p t r)]
  have hsplit : (p ++ makeFooter t r).data =
      p.data ++ (makeFooter t r).data := String.data_append _ _
  have hhead : ((makeFooter t r).data).head? = some '\n' := by
    cases r with
    | some s => rw [makeFooter_some_data]; rfl
    | none => rw [makeFooter_none_data]; rfl
  rw [hsplit, scanMatches_append_hd_nl _ _ hp hhead]
  cases r with
  | some s =>
    obtain ⟨hne, hcl⟩ := hr s rfl
    rw [scanMatches_footer_some t s ht hcl hne]
    rfl
  | none =>
    rw [scanMatches_footer_none t ht]
    rfl

/-- C10 (amended): for every list of `(prefix, threadId, reviewId?)` triples
whose bodies are `prefix ++ makeFooter threadId reviewId?`, provided the
prefix text itself contains no `review::` tag match and the thread and review
ids consist only of lowercase-hex-and-dash characters (with each present
review id non-empty, as the UUIDs the code generates are),
`countReviewCycles` on those comments returns the number of distinct review
ids; footers built without a review id contribute nothing. -/
theorem countReviewCycles_makeFooter_roundtrip
    (items : List (String × String × Option String))
    (hpfx : ∀ it ∈ items, scanMatches it.1.data = [])
    (htid : ∀ it ∈ items, ∀ c ∈ it.2.1.data, isClassChar c = true)
    (hrid : ∀ it ∈ items, ∀ s, it.2.2 = some s →
      s.data ≠ [] ∧ ∀ c ∈ s.data, isClassChar c = true) :
    countReviewCycles (items.map
        (fun it => ⟨some (it.1 ++ makeFooter it.2.1 it.2.2)⟩)) =
      (items.filterMap (fun it => it.2.2)).toFinset.card := by
  have hkey : cycleIdSet (items.map
      (fun it => ⟨some (it.1 ++ makeFooter it.2.1 it.2.2)⟩)) =
      ((items.filterMap (fun it => it.2.2)).map String.data).toFinset := by
    ext x
    rw [mem_cycleIdSet, List.mem_toFinset, List.mem_map]
    constructor
    · rintro ⟨c, hc, hx⟩
      rw [List.mem_map] at hc
      obtain ⟨it, hit, rfl⟩ := hc
      rw [bodyMatches_footer it.1 it.2.1 it.2.2 (hpfx it hit) (htid it hit)
        (hrid it hit)] at hx
      cases hrr : it.2.2 with
      | none =>
        rw [hrr] at hx
        simp at hx
      | some s =>
        rw [hrr] at hx
        have hx' : x = s.data := by simpa using hx
        exact ⟨s, List.mem_filterMap.mpr ⟨it, hit, hrr⟩, hx'.symm⟩
    · rintro ⟨s, hs, rfl⟩
      rw [List.mem_filterMap] at hs
      obtain ⟨it, hit, hrr⟩ := hs
      refine ⟨⟨some (it.1 ++ makeFooter it.2.1 it.2.2)⟩,
        List.mem_map.mpr ⟨it, hit, rfl⟩, ?_⟩
      rw [bodyMatches_footer it.1 it.2.1 it.2.2 (hpfx it hit) (htid it hit)
        (hrid it hit), hrr]
      show s.data ∈ [s.data]
      exact List.mem_singleton.mpr rfl
  show (cycleIdSet _).card = _
  rw [hkey]
  have himg : ((items.filterMap (fun it => it.2.2)).map String.data).toFinset =
      (items.filterMap (fun it => it.2.2)).toFinset.image String.data := by
    ext x
    simp
  rw [himg, Finset.card_image_of_injective _ stringData_inj]

theorem countReviewCycles_makeFooter_roundtrip_witness :
    countReviewCycles ([(("" : String), ("0123" : String),
        some ("abc" : String)), (("zz" : String), ("00" : String),
        (none : Option String))].map
        (fun it => ⟨some (it.1 ++ makeFooter it.2.1 it.2.2)⟩)) =
      ([(("" : String), ("0123" : String), some ("abc" : String)),
        (("zz" : String), ("00" : String), (none : Option String))].filterMap
        (fun it => it.2.2)).toFinset.card :=
  countReviewCycles_makeFooter_roundtrip _ (by decide) (by decide) (by decide)

/-- C10 counterexample: the claim quantifies over arbitrary bodies that merely
*end* with `makeFooter`, but a body whose text before the footer itself
contains a `review::` tag contributes extra ids: with body
`"review::00" ++ makeFooter "0123" (some "ffff")` the counter returns 2 while
the distinct review ids supplied through the footers number 1. -/
theorem countReviewCycles_makeFooter_cex :
    countReviewCycles
        [⟨some ("review::00" ++ makeFooter "0123" (some "ffff"))⟩] = 2 ∧
    ([(("review::00" : String), ("0123" : String),
        some ("ffff" : String))].filterMap
        (fun it => it.2.2)).toFinset.card = 1 ∧
    (2 : Nat) ≠ 1 := by
  refine ⟨by decide, by decide, by decide⟩

theorem runFailing_iff (r : CheckRun) : runFailing r = true ↔
    r.status = "completed" ∧
      (r.conclusion.getD "unknown" = "failure" ∨
       r.conclusion.getD "unknown" = "cancelled" ∨
       r.conclusion.getD "unknown" = "timed_out") := by
  simp [runFailing, Bool.and_eq_true, Bool.or_eq_true]
  tauto

theorem statusFailing_iff (s : CommitStatus) : statusFailing s = true ↔
    s.state = "failure" ∨ s.state = "error" := by
  simp [statusFailing, Bool.or_eq_true]

theorem mem_ciFailedChecks_run {r : CheckRun} {runs : List CheckRun}
    (statuses : List CommitStatus) (hr : r ∈ runs)
    (hf : runFailing r = true) :
    (⟨r.name, r.conclusion.getD "unknown", r.html_url⟩ : FailedCheck) ∈
      ciFailedChecks runs statuses :=
  List.mem_append_left _
    (List.mem_filterMap.mpr ⟨r, hr, by rw [if_pos hf]⟩)

theorem mem_ciFailedChecks_status {s : CommitStatus}
    (runs : List CheckRun) {statuses : List CommitStatus} (hs : s ∈ statuses)
    (hf : statusFailing s = true) :
    (⟨s.context, s.state, s.target_url⟩ : FailedCheck) ∈
      ciFailedChecks runs statuses :=
  List.mem_append_right _
    (List.mem_filterMap.mpr ⟨s, hs, by rw [if_pos hf]⟩)

theorem ciFailedChecks_eq_nil {runs : List CheckRun}
    {statuses : List CommitStatus}
    (hr : ∀ r ∈ runs, runFailing r = false)
    (hs : ∀ s ∈ statuses, statusFailing s = false) :
    ciFailedChecks runs statuses = [] := by
  unfold ciFailedChecks
  rw [List.append_eq_nil]
  constructor
  · rw [List.filterMap_eq_nil_iff]
    intro r hrr
    rw [hr r hrr]
    rfl
  · rw [List.filterMap_eq_nil_iff]
    intro s hss
    rw [hs s hss]
    rfl

/-- C3: `checkCI` reduces the two result lists to one verdict: both empty
yields `passed`; any completed check run with conclusion `failure`,
`cancelled` or `timed_out`, or any status with state `failure` or `error`,
yields `failed` with an entry in `failedChecks` for every such run/status;
otherwise any non-completed run or `pending` status yields `pending`;
otherwise the verdict is `passed`. -/
theorem checkCI_verdict (runs : List CheckRun) (statuses : List CommitStatus) :
    (runs = [] → statuses = [] →
      checkCI runs statuses =
        ⟨.passed, "No CI checks configured — treating as passed.", []⟩) ∧
    (((∃ r ∈ runs, r.status = "completed" ∧
        (r.conclusion.getD "unknown" = "failure" ∨
         r.conclusion.getD "unknown" = "cancelled" ∨
         r.conclusion.getD "unknown" = "timed_out")) ∨
      (∃ s ∈ statuses, s.state = "failure" ∨ s.state = "error")) →
      (checkCI runs statuses).state = .failed ∧
      (∀ r ∈ runs, r.status = "completed" →
        (r.conclusion.getD "unknown" = "failure" ∨
         r.conclusion.getD "unknown" = "cancelled" ∨
         r.conclusion.getD "unknown" = "timed_out") →
        (⟨r.name, r.conclusion.getD "unknown", r.html_url⟩ : FailedCheck) ∈
          (checkCI runs statuses).failedChecks) ∧
      (∀ s ∈ statuses, (s.state = "failure" ∨ s.state = "error") →
        (⟨s.context, s.state, s.target_url⟩ : FailedCheck) ∈
          (checkCI runs statuses).failedChecks)) ∧
    ((∀ r ∈ runs, ¬(r.status = "completed" ∧
        (r.conclusion.getD "unknown" = "failure" ∨
         r.conclusion.getD "unknown" = "cancelled" ∨
         r.conclusion.getD "unknown" = "timed_out"))) →
      (∀ s ∈ statuses, ¬(s.state = "failure" ∨ s.state = "error")) →
      ((∃ r ∈ runs, ¬ r.status = "completed") ∨
       (∃ s ∈ statuses, s.state = "pending")) →
      (checkCI runs statuses).state = .pending) ∧
    ((∀ r ∈ runs, ¬(r.status = "completed" ∧
        (r.conclusion.getD "unknown" = "failure" ∨
         r.conclusion.getD "unknown" = "cancelled" ∨
         r.conclusion.getD "unknown" = "timed_out"))) →
      (∀ s ∈ statuses, ¬(s.state = "failure" ∨ s.state = "error")) →
      (∀ r ∈ runs, r.status = "completed") →
      (∀ s ∈ statuses, ¬ s.state = "pending") →
      (checkCI runs statuses).state = .passed) := by
  refine ⟨?_, ?_, ?_, ?_⟩
  · rintro rfl rfl
    rfl
  · intro hex
    have hne : ¬(runs.length = 0 ∧ statuses.length = 0) := by
      rintro ⟨hr0, hs0⟩
      rw [List.length_eq_zero] at hr0 hs0
      subst hr0; subst hs0
      rcases hex with ⟨r, hr, _⟩ | ⟨s, hs, _⟩
      · exact absurd hr (List.not_mem_nil r)
      · exact absurd hs (List.not_mem_nil s)
    have hpos : 0 < (ciFailedChecks runs statuses).length := by
      rcases hex with ⟨r, hr, hc⟩ | ⟨s, hs, hc⟩
      · exact List.length_pos.mpr (List.ne_nil_of_mem
          (mem_ciFailedChecks_run statuses hr ((runFailing_iff r).mpr hc)))
      · exact List.length_pos.mpr (List.ne_nil_of_mem
          (mem_ciFailedChecks_status runs hs ((statusFailing_iff s).mpr hc)))
    have hres : checkCI runs statuses =
        ⟨.failed,
          "CI failed: " ++ String.intercalate ", "
            ((ciFailedChecks runs statuses).map (fun c => c.name)),
          ciFailedChecks runs statuses⟩ := by
      unfold checkCI
      rw [if_neg hne, if_pos hpos]
    refine ⟨by rw [hres], ?_, ?_⟩
    · intro r hr h1 h2
      rw [hres]
      exact mem_ciFailedChecks_run statuses hr ((runFailing_iff r).mpr ⟨h1, h2⟩)
    · intro s hs h1
      rw [hres]
      exact mem_ciFailedChecks_status runs hs ((statusFailing_iff s).mpr h1)
  · intro hr hs hex
    have hne : ¬(runs.length = 0 ∧ statuses.length = 0) := by
      rintro ⟨hr0, hs0⟩
      rw [List.length_eq_zero] at hr0 hs0
      subst hr0; subst hs0
      rcases hex with ⟨r, hrr, _⟩ | ⟨s, hss, _⟩
      · exact absurd hrr (List.not_mem_nil r)
      · exact absurd hss (List.not_mem_nil s)
    have hnil : ciFailedChecks runs statuses = [] :=
      ciFailedChecks_eq_nil
        (fun r hrr => by
          have := hr r hrr
          revert this
          rw [← runFailing_iff r]
          cases runFailing r <;> simp)
        (fun s hss => by
          have := hs s hss
          revert this
          rw [← statusFailing_iff s]
          cases statusFailing s <;> simp)
    have hany : (runs.any (fun r => r.status != "completed") ||
        statuses.any (fun s => s.state == "pending")) = true := by
      rw [Bool.or_eq_true, List.any_eq_true, List.any_eq_true]
      rcases hex with ⟨r, hrr, hc⟩ | ⟨s, hss, hc⟩
      · exact Or.inl ⟨r, hrr, bne_iff_ne.mpr hc⟩
      · exact Or.inr ⟨s, hss, beq_iff_eq.mpr hc⟩
    unfold checkCI
    rw [if_neg hne, hnil, if_neg (by simp), if_pos hany]
  · intro hr hs hcomp hnp
    have hnil : ciFailedChecks runs statuses = [] :=
      ciFailedChecks_eq_nil
        (fun r hrr => by
          have := hr r hrr
          revert this
          rw [← runFailing_iff r]
          cases runFailing r <;> simp)
        (fun s hss => by
          have := hs s hss
          revert this
          rw [← statusFailing_iff s]
          cases statusFailing s <;> simp)
    have hany : (runs.any (fun r => r.status != "completed") ||
        statuses.any (fun s => s.state == "pending")) = false := by
      rw [Bool.or_eq_false_iff, List.any_eq_false, List.any_eq_false]
      constructor
      · intro r hrr
        simp only [bne_iff_ne, ne_eq, not_not]
        exact hcomp r hrr
      · intro s hss
        simp only [beq_iff_eq]
        exact hnp s hss
    by_cases hall : runs.length = 0 ∧ statuses.length = 0
    · unfold checkCI
      rw [if_pos hall]
    · unfold checkCI
      rw [if_neg hall, hnil, if_neg (by simp), if_neg (by rw [hany]; simp)]

theorem checkCI_verdict_witness :
    checkCI [] [] =
      ⟨.passed, "No CI checks configured — treating as passed.", []⟩ ∧
    (checkCI [⟨"build", "completed", some "failure", none⟩] []).state =
      .failed ∧
    (⟨"build", "failure", none⟩ : FailedCheck) ∈
      (checkCI [⟨"build", "completed", some "failure", none⟩] []).failedChecks ∧
    (checkCI [⟨"build", "in_progress", none, none⟩] []).state = .pending ∧
    (checkCI [⟨"build", "completed", some "success", none⟩] []).state =
      .passed :=
  ⟨(checkCI_verdict [] []).1 rfl rfl,
   ((checkCI_verdict [⟨"build", "completed", some "failure", none⟩] []).2.1
      (by decide)).1,
   (((checkCI_verdict [⟨"build", "completed", some "failure", none⟩] []).2.1
      (by decide)).2.1 ⟨"build", "completed", some "failure", none⟩
      (by decide) (by decide) (by decide)),
   (checkCI_verdict [⟨"build", "in_progress", none, none⟩] []).2.2.1
      (by decide) (by decide) (by decide),
   (checkCI_verdict [⟨"build", "completed", some "success", none⟩] []).2.2.2
      (by decide) (by decide) (by decide) (by decide)⟩

/-- C4: with verdict `pending`, the handler compares `now` minus the head
commit's own committer timestamp (author timestamp when the committer one is
absent) against the configured timeout: one millisecond past the timeout it
posts the timeout comment and transitions to `bot-changes-needed` — the same
label transition as a CI failure — while one millisecond before it performs
no mutation.  The model has no watch-start input: elapsed time depends only
on the commit timestamp and the clock. -/
theorem handleCIPending_timeout (T timeoutMs : Int)
    (committerDate authorDate : Option Int) :
    (handleCIPending .pending (some T) authorDate (T + timeoutMs + 1)
        timeoutMs = ⟨[.ciTimeout], some "bot-changes-needed"⟩) ∧
    (handleCIPending .pending (some T) authorDate (T + timeoutMs - 1)
        timeoutMs = ⟨[], none⟩) ∧
    (handleCIPending .pending none (some T) (T + timeoutMs + 1) timeoutMs =
      ⟨[.ciTimeout], some "bot-changes-needed"⟩) ∧
    (handleCIPending .pending none (some T) (T + timeoutMs - 1) timeoutMs =
      ⟨[], none⟩) ∧
    (handleCIPending .failed committerDate authorDate now timeoutMs =
      ⟨[.ciFailed], some "bot-changes-needed"⟩) := by
  refine ⟨?_, ?_, ?_, ?_, rfl⟩ <;>
    simp only [handleCIPending, commitTimestamp] <;>
    [rw [if_pos (by omega)]; rw [if_neg (by omega)];
     rw [if_pos (by omega)]; rw [if_neg (by omega)]]

theorem dedupFold_subset : ∀ (l acc : List ReviewComment),
    acc ⊆ l.foldl dedupStep acc := by
  intro l
  induction l with
  | nil => intro acc x hx; exact hx
  | cons c l ih =>
    intro acc x hx
    refine ih (dedupStep acc c) ?_
    unfold dedupStep
    split
    · exact hx
    · exact List.mem_append_left _ hx

theorem dedupFold_sublist : ∀ (l acc : List ReviewComment),
    (l.foldl dedupStep acc).Sublist (acc ++ l) := by
  intro l
  induction l with
  | nil => intro acc; simp
  | cons c l ih =>
    intro acc
    refine (ih (dedupStep acc c)).trans ?_
    unfold dedupStep
    split
    · refine List.append_sublist_append_left acc |>.mpr ?_
      exact List.sublist_cons_self c l
    · rw [List.append_assoc, List.singleton_append]

theorem dedupFold_pairwise : ∀ (l acc : List ReviewComment),
    acc.Pairwise (fun e c => isDupComment e c = false) →
    (l.foldl dedupStep acc).Pairwise (fun e c => isDupComment e c = false) := by
  intro l
  induction l with
  | nil => intro acc h; exact h
  | cons cnew l ih =>
    intro acc h
    refine ih (dedupStep acc cnew) ?_
    unfold dedupStep
    split
    case isTrue => exact h
    case isFalse hany =>
      rw [List.pairwise_append]
      refine ⟨h, List.pairwise_singleton _ _, ?_⟩
      intro a ha b hb
      rw [List.mem_singleton] at hb
      subst hb
      cases hh : isDupComment a b with
      | false => rfl
      | true => exact absurd (List.any_eq_true.mpr ⟨a, ha, hh⟩) hany

theorem dedupFold_cover : ∀ (l acc : List ReviewComment), ∀ x ∈ l,
    x ∈ l.foldl dedupStep acc ∨
      ∃ e ∈ l.foldl dedupStep acc, isDupComment e x = true := by
  intro l
  induction l with
  | nil => intro acc x hx; exact absurd hx (List.not_mem_nil x)
  | cons c l ih =>
    intro acc x hx
    rcases List.mem_cons.mp hx with rfl | hx'
    · unfold List.foldl dedupStep
      split
      case isTrue hany =>
        obtain ⟨e, he, hde⟩ := List.any_eq_true.mp hany
        exact Or.inr ⟨e, dedupFold_subset l acc he, hde⟩
      case isFalse =>
        exact Or.inl (dedupFold_subset l _ (List.mem_append_right _
          (List.mem_singleton.mpr rfl)))
    · exact ih (dedupStep acc c) x hx'

/-- C5: the merger concatenates the two passes' comments (architecture first)
and deduplicates with first-occurrence-wins: the kept list is a sublist of
the concatenation, no two kept comments are duplicates of each other (same
path, both lines present and at most 2 apart, identical bodies), and every
concatenated comment is either kept or a duplicate of a kept one.  In
particular `{a.go,10,X}` and `{a.go,11,X}` collapse to the first, while two
comments at the same location with different bodies are both kept. -/
theorem mergeResults_dedup (a : ArchPassResult) (d : DetailedPassResult) :
    ((mergeResults a d).comments =
      dedupComments (a.architecture_comments ++ d.detail_comments)) ∧
    ((mergeResults a d).comments).Sublist
      (a.architecture_comments ++ d.detail_comments) ∧
    ((mergeResults a d).comments).Pairwise
      (fun e c => isDupComment e c = false) ∧
    (∀ x ∈ a.architecture_comments ++ d.detail_comments,
      x ∈ (mergeResults a d).comments ∨
        ∃ e ∈ (mergeResults a d).comments, isDupComment e x = true) ∧
    (mergeResults ⟨[⟨some "a.go", some 10, "X"⟩], ⟨false, none⟩, [], none⟩
        ⟨[⟨some "a.go", some 11, "X"⟩], [], none⟩).comments =
      [⟨some "a.go", some 10, "X"⟩] ∧
    (mergeResults ⟨[⟨some "a.go", some 10, "X"⟩], ⟨false, none⟩, [], none⟩
        ⟨[⟨some "a.go", some 10, "Y"⟩], [], none⟩).comments =
      [⟨some "a.go", some 10, "X"⟩, ⟨some "a.go", some 10, "Y"⟩] := by
  have hcomments : (mergeResults a d).comments =
      dedupComments (a.architecture_comments ++ d.detail_comments) := rfl
  refine ⟨hcomments, ?_, ?_, ?_, by decide, by decide⟩
  · rw [hcomments]
    have := dedupFold_sublist
      (a.architecture_comments ++ d.detail_comments) []
    simpa [dedupComments] using this
  · rw [hcomments]
    exact dedupFold_pairwise _ [] (List.Pairwise.nil)
  · intro x hx
    rw [hcomments]
    exact dedupFold_cover _ [] x hx

theorem mergeResults_dedup_witness :
    (⟨some "b.go", some 5, "Z"⟩ : ReviewComment) ∈
      (mergeResults ⟨[⟨some "b.go", some 5, "Z"⟩], ⟨false, none⟩, [], none⟩
        ⟨[], [], none⟩).comments ∨
    ∃ e ∈ (mergeResults ⟨[⟨some "b.go", some 5, "Z"⟩], ⟨false, none⟩, [], none⟩
        ⟨[], [], none⟩).comments,
      isDupComment e ⟨some "b.go", some 5, "Z"⟩ = true :=
  (mergeResults_dedup ⟨[⟨some "b.go", some 5, "Z"⟩], ⟨false, none⟩, [], none⟩
    ⟨[], [], none⟩).2.2.2.1 ⟨some "b.go", some 5, "Z"⟩ (by decide)

/-- C6 counterexample: in the review pipeline's unresolved-verdict loop the
`catch` only logs, so when the reply target is gone (a 404) the response is
silently dropped — no fallback free-standing comment is created,
contradicting the claim that every thread-reply site falls back. -/
theorem postThreadResponse_dropped_cex :
    postThreadResponse false "123" "still wrong" "footer" = [] ∧
    ¬ ∃ b, PostedComment.general b ∈
      postThreadResponse false "123" "still wrong" "footer" := by
  refine ⟨rfl, ?_⟩
  rintro ⟨b, hb⟩
  simp [postThreadResponse] at hb

/-- C6 (amended): when the reply target no longer exists (404), the review
pipeline's resolution markers and the write pipeline's addressed-thread
explanations fall back to a free-standing comment whose body contains the
original `thread::<id>` text, so recovery logic still finds it; the review
pipeline's unresolved-verdict responses are not retried — the failure is
logged and that reply is dropped. -/
theorem reply_fallback_behaviour (tid response explanation footer : String) :
    (postResolvedMarker false tid footer =
        [.general ("REVIEW BOT RESOLVED (thread::" ++ tid ++ ")" ++ footer)] ∧
      ∃ pre post : String,
        "REVIEW BOT RESOLVED (thread::" ++ tid ++ ")" ++ footer =
          pre ++ ("thread::" ++ tid) ++ post) ∧
    (postAddressedReply false tid explanation footer =
        [.general ("**Addressed** (thread::" ++ tid ++ "): " ++ explanation ++
          footer)] ∧
      ∃ pre post : String,
        "**Addressed** (thread::" ++ tid ++ "): " ++ explanation ++ footer =
          pre ++ ("thread::" ++ tid) ++ post) ∧
    postThreadResponse false tid response footer = [] := by
  refine ⟨⟨rfl, "REVIEW BOT RESOLVED (", ")" ++ footer, ?_⟩,
    ⟨rfl, "**Addressed** (", "): " ++ explanation ++ footer, ?_⟩, rfl⟩
  · apply stringData_inj
    simp [String.data_append]
  · apply stringData_inj
    simp [String.data_append]

/-- C7: when the cycle count recomputed from the comment history reaches the
configured maximum, the write pipeline posts the hand-off comment,
transitions the label to `bot-human-intervention` and stops: no checkout is
acquired, no merge is attempted, no agent invocation and no push occurs in
that run. -/
theorem writePipeline_cycle_limit (comments : List CommentRec)
    (maxCycles : Nat) (tid : String) (rest : List WriteEvent)
    (h : maxCycles ≤ countReviewCycles comments) :
    runWritePipelineGate comments maxCycles tid rest =
      [.postComment (handoffBody (countReviewCycles comments) tid),
       .setLabelCall "bot-human-intervention"] ∧
    WriteEvent.checkout ∉ runWritePipelineGate comments maxCycles tid rest ∧
    (∀ p, WriteEvent.agentInvoke p ∉
      runWritePipelineGate comments maxCycles tid rest) ∧
    WriteEvent.mergeAttempt ∉
      runWritePipelineGate comments maxCycles tid rest ∧
    WriteEvent.pushCall ∉ runWritePipelineGate comments maxCycles tid rest := by
  have heq : runWritePipelineGate comments maxCycles tid rest =
      [.postComment (handoffBody (countReviewCycles comments) tid),
       .setLabelCall "bot-human-intervention"] := by
    unfold runWritePipelineGate
    rw [if_pos h]
  refine ⟨heq, ?_, fun p => ?_, ?_, ?_⟩ <;> rw [heq] <;> simp

theorem writePipeline_cycle_limit_witness :
    runWritePipelineGate [⟨some "review::0"⟩] 1 "t" [.checkout] =
      [.postComment (handoffBody (countReviewCycles [⟨some "review::0"⟩]) "t"),
       .setLabelCall "bot-human-intervention"] ∧
    WriteEvent.checkout ∉
      runWritePipelineGate [⟨some "review::0"⟩] 1 "t" [.checkout] :=
  ⟨(writePipeline_cycle_limit [⟨some "review::0"⟩] 1 "t" [.checkout]
      (by decide)).1,
   (writePipeline_cycle_limit [⟨some "review::0"⟩] 1 "t" [.checkout]
      (by decide)).2.1⟩

theorem sliceLast_length_le (s : String) (n : Nat) :
    (sliceLast s n).length ≤ n := by
  show (s.data.drop (s.data.length - n)).length ≤ n
  rw [List.length_drop]
  omega

theorem buildLoop_fail_output_le : ∀ (cmds : List CmdRun)
    (outputs : List String),
    (buildLoop outputs cmds).success = false →
    (buildLoop outputs cmds).output.length ≤ MAX_OUTPUT_LENGTH := by
  intro cmds
  induction cmds with
  | nil =>
    intro outputs h
    exact absurd h (by simp [buildLoop])
  | cons r rest ih =>
    intro outputs h
    cases hs : r.success with
    | true =>
      simp only [buildLoop, hs, if_true] at h ⊢
      exact ih _ h
    | false =>
      simp only [buildLoop, hs] at h ⊢
      exact sliceLast_length_le _ _

theorem runBuildAndTests_fail_output_le (cmds : List CmdRun)
    (h : (runBuildAndTests cmds).success = false) :
    (runBuildAndTests cmds).output.length ≤ MAX_OUTPUT_LENGTH := by
  unfold runBuildAndTests at h ⊢
  by_cases hnil : cmds = []
  · rw [if_pos hnil] at h
    exact absurd h (by simp)
  · rw [if_neg hnil] at h ⊢
    exact buildLoop_fail_output_le cmds [] h

/-- C9: when the build/test gate fails, the review pipeline posts exactly one
comment — the failure output (truncated to `MAX_OUTPUT_LENGTH`) in a code
fence, tagged with a fresh thread id — transitions the label to
`bot-changes-needed`, and stops before any analysis pass: no agent
invocation occurs. -/
theorem reviewPipeline_build_gate (cmds : List CmdRun) (tid : String)
    (rest : List ReviewEvent)
    (hfail : (runBuildAndTests cmds).success = false) :
    runReviewPipelineGate (runBuildAndTests cmds) tid rest =
      [.checkout,
       .postComment ("## Build/Test Failure\n\n```\n" ++
         (runBuildAndTests cmds).output ++ "\n```" ++ makeFooter tid none),
       .setLabelCall "bot-changes-needed"] ∧
    (runReviewPipelineGate (runBuildAndTests cmds) tid rest).countP
      isPostCommentEvent = 1 ∧
    (∀ p, ReviewEvent.agentInvoke p ∉
      runReviewPipelineGate (runBuildAndTests cmds) tid rest) ∧
    ReviewEvent.setLabelCall "bot-changes-needed" ∈
      runReviewPipelineGate (runBuildAndTests cmds) tid rest ∧
    (runBuildAndTests cmds).output.length ≤ MAX_OUTPUT_LENGTH := by
  have heq : runReviewPipelineGate (runBuildAndTests cmds) tid rest =
      [.checkout,
       .postComment ("## Build/Test Failure\n\n```\n" ++
         (runBuildAndTests cmds).output ++ "\n```" ++ makeFooter tid none),
       .setLabelCall "bot-changes-needed"] := by
    unfold runReviewPipelineGate
    rw [if_neg (by rw [hfail]; simp)]
  refine ⟨heq, ?_, fun p => ?_, ?_,
    runBuildAndTests_fail_output_le cmds hfail⟩ <;>
    rw [heq] <;>
    simp [List.countP_cons, isPostCommentEvent]

theorem reviewPipeline_build_gate_witness :
    ((runBuildAndTests [⟨"make", false, "boom", ""⟩]).success = false) ∧
    runReviewPipelineGate (runBuildAndTests [⟨"make", false, "boom", ""⟩])
        "t" [] =
      [.checkout,
       .postComment ("## Build/Test Failure\n\n```\n" ++
         (runBuildAndTests [⟨"make", false, "boom", ""⟩]).output ++
         "\n```" ++ makeFooter "t" none),
       .setLabelCall "bot-changes-needed"] ∧
    (runBuildAndTests [⟨"make", false, "boom", ""⟩]).output.length ≤
      MAX_OUTPUT_LENGTH :=
  ⟨rfl,
   (reviewPipeline_build_gate [⟨"make", false, "boom", ""⟩] "t" [] rfl).1,
   (reviewPipeline_build_gate [⟨"make", false, "boom", ""⟩] "t" []
     rfl).2.2.2.2⟩

theorem isSomeFalse_eq_none {α : Type} {o : Option α} (h : o.isSome = false) :
    o = none := by
  cases o with
  | none => rfl
  | some a => simp at h

/-- C8: each result parser is a total function of the extraction result —
as Lean functions they cannot raise — and degrades per field: a falsy
extraction (`none`, i.e. no JSON could be extracted, or a falsy parsed value)
yields the documented empty/false defaults wholesale, and each expected field
that is missing or of the wrong shape independently degrades to its
empty/false default. -/
theorem result_parsers_degrade (data : Option JValue) :
    (isFalsy data = true →
      (parseArchitectureResult data).architecture_comments = [] ∧
      (parseArchitectureResult data).architecture_update_needed = defaultAU ∧
      (parseArchitectureResult data).thread_responses = [] ∧
      (parseArchitectureResult data).summary = none ∧
      (parseDetailedResult data).detail_comments = [] ∧
      (parseDetailedResult data).thread_responses = [] ∧
      (parseDetailedResult data).summary = none ∧
      (parseWriteResult data).threads_addressed = [] ∧
      (parseWriteResult data).build_passed = false ∧
      (parseWriteResult data).summary = "Failed to parse code-fix output.") ∧
    (isArrField data "architecture_comments" = false →
      isArrField data "new_comments" = false →
      (parseArchitectureResult data).architecture_comments = []) ∧
    (isArrField data "detail_comments" = false →
      isArrField data "new_comments" = false →
      (parseDetailedResult data).detail_comments = []) ∧
    (isObjField data "architecture_update_needed" = false →
      (parseArchitectureResult data).architecture_update_needed = defaultAU ∧
      getField defaultAU "needed" = some (.bool false)) ∧
    (isArrField data "thread_responses" = false →
      (parseArchitectureResult data).thread_responses = [] ∧
      (parseDetailedResult data).thread_responses = []) ∧
    (isArrField data "threads_addressed" = false →
      (parseWriteResult data).threads_addressed = []) ∧
    (isBoolField data "build_passed" = false →
      (parseWriteResult data).build_passed = false) ∧
    (isStrField data "summary" = false →
      (parseArchitectureResult data).summary = none ∧
      (parseDetailedResult data).summary = none ∧
      ((parseWriteResult data).summary = "Failed to parse code-fix output." ∨
       (parseWriteResult data).summary = "Code fix complete.")) := by
  have hneed : getField defaultAU "needed" = some (.bool false) := by
    simp [getField, defaultAU, lookupLast]
  by_cases hf : isFalsy data = true
  · have hA : parseArchitectureResult data = ⟨[], defaultAU, [], none⟩ := by
      unfold parseArchitectureResult
      rw [if_pos hf]
    have hD : parseDetailedResult data = ⟨[], [], none⟩ := by
      unfold parseDetailedResult
      rw [if_pos hf]
    have hW : parseWriteResult data =
        ⟨[], false, "Failed to parse code-fix output."⟩ := by
      unfold parseWriteResult
      rw [if_pos hf]
    rw [hA, hD, hW]
    exact ⟨fun _ => ⟨rfl, rfl, rfl, rfl, rfl, rfl, rfl, rfl, rfl, rfl⟩,
      fun _ _ => rfl, fun _ _ => rfl, fun _ => ⟨rfl, hneed⟩,
      fun _ => ⟨rfl, rfl⟩, fun _ => rfl, fun _ => rfl,
      fun _ => ⟨rfl, rfl, Or.inl rfl⟩⟩
  · refine ⟨fun h => absurd h hf, ?_, ?_, ?_, ?_, ?_, ?_, ?_⟩
    · intro h1 h2
      have h1' := isSomeFalse_eq_none h1
      have h2' := isSomeFalse_eq_none h2
      unfold parseArchitectureResult
      rw [if_neg hf]
      show (match asArr (fieldOf data "architecture_comments") with
        | some xs => xs
        | none =>
          match asArr (fieldOf data "new_comments") with
          | some xs => xs
          | none => []) = []
      rw [h1', h2']
    · intro h1 h2
      have h1' := isSomeFalse_eq_none h1
      have h2' := isSomeFalse_eq_none h2
      unfold parseDetailedResult
      rw [if_neg hf]
      show (match asArr (fieldOf data "detail_comments") with
        | some xs => xs
        | none =>
          match asArr (fieldOf data "new_comments") with
          | some xs => xs
          | none => []) = []
      rw [h1', h2']
    · intro h1
      refine ⟨?_, hneed⟩
      unfold parseArchitectureResult
      rw [if_neg hf]
      show (match fieldOf data "architecture_update_needed" with
        | some v => if isObjLike v then v else defaultAU
        | none => defaultAU) = defaultAU
      have h1' : (match fieldOf data "architecture_update_needed" with
        | some v => isObjLike v
        | none => false) = false := h1
      cases hv : fieldOf data "architecture_update_needed" with
      | none => rfl
      | some v =>
        rw [hv] at h1'
        have h1'' : isObjLike v = false := h1'
        show (if isObjLike v = true then v else defaultAU) = defaultAU
        rw [if_neg (by rw [h1'']; simp)]
    · intro h1
      have h1' := isSomeFalse_eq_none h1
      constructor
      · unfold parseArchitectureResult
        rw [if_neg hf]
        show (match asArr (fieldOf data "thread_responses") with
          | some xs => xs
          | none => []) = []
        rw [h1']
      · unfold parseDetailedResult
        rw [if_neg hf]
        show (match asArr (fieldOf data "thread_responses") with
          | some xs => xs
          | none => []) = []
        rw [h1']
    · intro h1
      have h1' := isSomeFalse_eq_none h1
      unfold parseWriteResult
      rw [if_neg hf]
      show (match asArr (fieldOf data "threads_addressed") with
        | some xs => xs
        | none => []) = []
      rw [h1']
    · intro h1
      unfold parseWriteResult
      rw [if_neg hf]
      show (match fieldOf data "build_passed" with
        | some (.bool b) => b
        | _ => false) = false
      have h1' : (match fieldOf data "build_passed" with
        | some (.bool _) => true
        | _ => false) = false := h1
      cases hv : fieldOf data "build_passed" with
      | none => rfl
      | some v =>
        rw [hv] at h1'
        cases v with
        | bool b => exact absurd h1' (by simp)
        | null => rfl
        | num n => rfl
        | str s => rfl
        | arr xs => rfl
        | obj fs => rfl
    · intro h1
      have h1' : (match fieldOf data "summary" with
        | some (.str _) => true
        | _ => false) = false := h1
      have harch : (match fieldOf data "summary" with
          | some (JValue.str s) => some s
          | _ => none) = (none : Option String) := by
        cases hv : fieldOf data "summary" with
        | none => rfl
        | some v =>
          rw [hv] at h1'
          cases v with
          | str s => exact absurd h1' (by simp)
          | null => rfl
          | bool b => rfl
          | num n => rfl
          | arr xs => rfl
          | obj fs => rfl
      have hwrite : (match fieldOf data "summary" with
          | some (JValue.str s) => s
          | _ => "Code fix complete.") = "Code fix complete." := by
        cases hv : fieldOf data "summary" with
        | none => rfl
        | some v =>
          rw [hv] at h1'
          cases v with
          | str s => exact absurd h1' (by simp)
          | null => rfl
          | bool b => rfl
          | num n => rfl
          | arr xs => rfl
          | obj fs => rfl
      refine ⟨?_, ?_, Or.inr ?_⟩
      · unfold parseArchitectureResult
        rw [if_neg hf]
        exact harch
      · unfold parseDetailedResult
        rw [if_neg hf]
        exact harch
      · unfold parseWriteResult
        rw [if_neg hf]
        exact hwrite

theorem result_parsers_degrade_witness :
    isFalsy (none : Option JValue) = true ∧
    (parseWriteResult none).build_passed = false ∧
    isBoolField (some (JValue.str "junk")) "build_passed" = false ∧
    (parseWriteResult (some (JValue.str "junk"))).build_passed = false ∧
    isArrField (some (JValue.str "junk")) "architecture_comments" = false ∧
    isArrField (some (JValue.str "junk")) "new_comments" = false ∧
    (parseArchitectureResult
      (some (JValue.str "junk"))).architecture_comments = [] :=
  ⟨rfl,
   ((result_parsers_degrade none).1 rfl).2.2.2.2.2.2.2.2.1,
   rfl,
   (result_parsers_degrade (some (JValue.str "junk"))).2.2.2.2.2.2.1 rfl,
   rfl, rfl,
   (result_parsers_degrade (some (JValue.str "junk"))).2.1 rfl rfl⟩

end ReviewBot
